import Mathlib

/-!
Verification of the TreatorHell questionnaire service core
(src/TreatorHell/api/index.py).

Python strings are modelled as `List Char`; the backing file
`student_responses.txt` is modelled as an `Option (List Char)`
(`none` = file absent or unreadable).  Python dicts of strings are
modelled as association lists with insertion-ordered keys.
-/

/-- Python strings are modelled as lists of characters. -/
abbrev Str := List Char

/-- An answer mapping (Python `Dict[str, str]`), as an insertion-ordered
association list. -/
abbrev AnswerMap := List (Str × Str)

/-- Characters stripped by Python `str.strip()` (the ASCII whitespace
characters; the texts handled by this program contain no exotic Unicode
whitespace). -/
def pyWs (c : Char) : Bool :=
  c == ' ' || c == '\t' || c == '\n' || c == '\r' || c == '\x0b' || c == '\x0c'

/-- Left part of Python `str.strip()`. -/
def pyStripLeft (s : Str) : Str := s.dropWhile pyWs

/-- Right part of Python `str.strip()`. -/
def pyStripRight (s : Str) : Str := (s.reverse.dropWhile pyWs).reverse

/-- Python `str.strip()`. -/
def pyStrip (s : Str) : Str := pyStripRight (pyStripLeft s)

/-- Worker for Python `str.split("\n")`. -/
def splitNlGo (acc : Str) : Str → List Str
  | [] => [acc.reverse]
  | c :: rest => if c = '\n' then acc.reverse :: splitNlGo [] rest else splitNlGo (c :: acc) rest

/-- Python `str.split("\n")`. -/
def splitNl (s : Str) : List Str := splitNlGo [] s

/-- The record separator `"=" * 60` used by the store. -/
def sepL : Str := List.replicate 60 '='

/-- Worker for Python `content.split("=" * 60)`: greedy left-to-right
scan for non-overlapping occurrences of the separator.  The `Nat`
argument is fuel; one character is consumed per step, so fuel equal to
the length of the string suffices. -/
def splitSepF : Nat → Str → Str → List Str
  | _, acc, [] => [acc.reverse]
  | 0, acc, s => [acc.reverse ++ s]
  | fuel + 1, acc, c :: rest =>
    if sepL.isPrefixOf (c :: rest) then
      acc.reverse :: splitSepF fuel [] (List.drop 59 rest)
    else
      splitSepF fuel (c :: acc) rest

/-- Python `content.split("=" * 60)` (line 84 of the source). -/
def splitSections (content : Str) : List Str := splitSepF content.length [] content

/-- Python substring test `pat in s`. -/
def containsPat (pat : Str) : Str → Bool
  | [] => pat.isEmpty
  | c :: rest => pat.isPrefixOf (c :: rest) || containsPat pat rest

/-- The literal marker `"Answer:"`. -/
def answerMarker : Str := "Answer:".toList

/-- Worker for Python `line.replace("Answer:", "")`: removes every
non-overlapping occurrence of `"Answer:"`, scanning left to right.
Fuel equal to the length of the string suffices. -/
def removeAnswerF : Nat → Str → Str
  | _, [] => []
  | 0, s => s
  | fuel + 1, c :: rest =>
    if answerMarker.isPrefixOf (c :: rest) then removeAnswerF fuel (List.drop 6 rest)
    else c :: removeAnswerF fuel rest

/-- Python `line.replace("Answer:", "")`. -/
def removeAnswer (s : Str) : Str := removeAnswerF s.length s

/-- Python dict assignment `d[k] = v`: overwrite in place if the key is
present (keeping its position), append otherwise. -/
def dinsert (k v : Str) (m : AnswerMap) : AnswerMap :=
  if (m.map Prod.fst).contains k then
    m.map fun p => if p.1 = k then (p.1, v) else p
  else m ++ [(k, v)]

/-- A question of the catalog: its text and its closed option set. -/
structure Question where
  question : Str
  options : List Str
deriving DecidableEq

/-- The question catalog `QUESTIONS` (lines 34-74 of the source), in
insertion order. -/
def QUESTIONS : List (Str × Question) :=
  [ ("Q1".toList,
     { question := "How did you handle your first assignment in this course?".toList,
       options :=
        [ "Submitted early (wow, okay overachiever 🌟)".toList,
          "Submitted on time (solid responsible energy)".toList,
          "Submitted at the last minute (\"adrenaline is my project manager\")".toList,
          "Submitted late (but with hope in your heart)".toList,
          "I meant to submit it… spiritually".toList ] }),
    ("Q2".toList,
     { question := "When you didn't understand something, what did you do?".toList,
       options :=
        [ "Asked ChatGPT (your new emotional support AI 🤖✨)".toList,
          "Went to office hours (professional, brave, gold star)".toList,
          "Asked on Discord (\"help pls\" vibe)".toList,
          "Googled aggressively".toList,
          "Pretended to understand and prayed for the best".toList ] }),
    ("Q3".toList,
     { question := "How do you engage in class?".toList,
       options :=
        [ "I keep my camera on (the bravery!)".toList,
          "I share my screen in breakout rooms (champion behavior)".toList,
          "I ask questions (Mikuláš approves)".toList,
          "I type in the chat (participation ninja)".toList,
          "I observe… quietly… like a wildlife researcher".toList ] }),
    ("Q4".toList,
     { question := "How many hours did you spend on the assignment?".toList,
       options :=
        [ "More than 10 hours (Angel fainted from joy)".toList,
          "5–10 hours (model student energy)".toList,
          "1 hour (efficient or reckless? undecided)".toList,
          "Not at all (classic)".toList ] }) ]

/-- The catalog ids, in catalog (insertion) order. -/
def catalogIds : List Str := QUESTIONS.map Prod.fst

/-- Python `QUESTIONS[qid]["question"]` (total, defaulting to the empty
string off the catalog). -/
def questionText (qid : Str) : Str := ((QUESTIONS.lookup qid).map Question.question).getD []

/-- Python `QUESTIONS[qid]["options"]` (total, defaulting to the empty
list off the catalog). -/
def optionsOf (qid : Str) : List Str := ((QUESTIONS.lookup qid).map Question.options).getD []

/-- Python `line.split(":")[0]`. -/
def beforeColon (l : Str) : Str := l.takeWhile fun c => !(c == ':')

/-- Inner forward scan of the decoder (lines 98-102 of the source): find
the first line starting with `"Answer:"` and extract the answer text. -/
def findAnswer : List Str → Option Str
  | [] => none
  | l :: rest =>
    if answerMarker.isPrefixOf l then some (pyStrip (removeAnswer l)) else findAnswer rest

/-- Line loop of the decoder (lines 93-102 of the source).  A line is a
candidate question line when it starts with `'Q'`, contains a `':'`, and
is not the last line (`i + 1 < len(lines)`); the answer is then searched
in the following lines. -/
def parseLines : List Str → AnswerMap → AnswerMap
  | [], acc => acc
  | l :: rest, acc =>
    if l.head? = some 'Q' ∧ l.contains ':' = true ∧ rest ≠ [] then
      match findAnswer rest with
      | some a => parseLines rest (dinsert (pyStrip (beforeColon l)) a acc)
      | none => parseLines rest acc
    else parseLines rest acc

/-- Parsing of one section of the stored text (lines 90-102 of the
source): strip, split into lines, and collect the `(id, answer)` pairs. -/
def parseSection (response : Str) : AnswerMap := parseLines (splitNl (pyStrip response)) []

/-- Section loop of the decoder (lines 87-105 of the source): scan the
sections in the given order, skip those without the `"Answer:"` marker,
and return the first non-empty parsed mapping. -/
def selectSection : List Str → Option AnswerMap
  | [] => none
  | sec :: rest =>
    if containsPat answerMarker sec = true then
      match parseSection sec with
      | [] => selectSection rest
      | p :: m => some (p :: m)
    else selectSection rest

/-- The decoder `get_latest_student_responses` (lines 75-112 of the
source), as a function of the file contents. -/
def get_latest_student_responses (content : Str) : Option AnswerMap :=
  selectSection (splitSections content).reverse

/-- The decoder lifted to the store state: an absent or unreadable file
(`none`, covering both the `exists()` check and the exception handlers
of lines 79-112) yields `none`. -/
def loadLatestStore : Option Str → Option AnswerMap
  | none => none
  | some content => get_latest_student_responses content

/-- Header line of the behavior summary (line 124 of the source). -/
def behaviorHeader : Str := "\n\nThe student's recent behavior report:".toList

/-- Closing instruction line of the behavior summary (lines 130-132). -/
def behaviorInstr : Str :=
  "\nUse this info to personalize your response. Reference their actual choices explicitly.".toList

/-- The summarizer `build_behavior_summary` (lines 115-133 of the
source), as a function of the recovered mapping: the source computes
`student_responses = get_latest_student_responses()` and returns `""`
when it is falsy (None or empty). -/
def build_behavior_summary (m : Option AnswerMap) : Str :=
  match m with
  | none => []
  | some sr =>
    if sr = [] then []
    else
      List.intercalate ['\n']
        (behaviorHeader ::
          ((catalogIds.filterMap fun qid => (sr.lookup qid).map fun a => '-' :: ' ' :: a) ++
            [behaviorInstr]))

/-- The summarizer composed with the store read, as in the source. -/
def behaviorSummaryOfStore (st : Option Str) : Str :=
  build_behavior_summary (loadLatestStore st)

/-- One question/answer block written by `submit_answers`
(lines 205-208 of the source):
`f"{question_id}: {question_text}\n"` followed by `f"Answer: {answer}\n\n"`. -/
def chunk (qid ans : Str) : Str :=
  qid ++ ": ".toList ++ questionText qid ++ "\nAnswer: ".toList ++ ans ++ "\n\n".toList

/-- The question/answer blocks, written in the iteration order of the
submitted mapping (`for question_id, answer in response.answers.items()`). -/
def blocksRaw (answers : AnswerMap) : Str := (answers.map fun p => chunk p.1 p.2).flatten

/-- The full text written by `submit_answers` (lines 200-208 of the
source): separator line, timestamp line, separator line, blank line,
then the blocks. -/
def encodeRecord (answers : AnswerMap) (timestamp : Str) : Str :=
  sepL ++ "\nResponse submitted at: ".toList ++ timestamp ++ ['\n'] ++ sepL ++
    "\n\n".toList ++ blocksRaw answers

/-- Persisting a submission (line 200 of the source): the file is opened
with mode `"w"`, so the previous store content is discarded entirely. -/
def persistStore (_store : Option Str) (answers : AnswerMap) (timestamp : Str) : Option Str :=
  some (encodeRecord answers timestamp)

/-- Submitted key list, in submission order. -/
def answerKeys (answers : AnswerMap) : List Str := answers.map Prod.fst

/-- Python `set(QUESTIONS.keys()) == set(response.answers.keys())`
(line 180 of the source), as mutual containment. -/
def keySetEq (answers : AnswerMap) : Bool :=
  catalogIds.all (fun k => (answerKeys answers).contains k) &&
    (answerKeys answers).all fun k => catalogIds.contains k

/-- Python `required_questions - provided_questions` (line 181).  The
source iterates a Python set whose order is unspecified; the ids are
listed here in catalog order. -/
def missingIds (answers : AnswerMap) : List Str :=
  catalogIds.filter fun k => !((answerKeys answers).contains k)

/-- Python `", ".join(...)`. -/
def joinCommaSp (l : List Str) : Str := List.intercalate ", ".toList l

/-- Body of a JSON response of `submit_answers`. -/
inductive SubmitBody where
  | err (msg : Str)
  | ok (message : Str) (timestamp : Str) (answers : AnswerMap)
deriving DecidableEq

/-- A JSON response of `submit_answers`: status code and body. -/
structure SubmitResponse where
  status : Nat
  body : SubmitBody
deriving DecidableEq

/-- The handler `submit_answers` (lines 173-221 of the source).  The
timestamp (produced by `datetime.now().strftime`) and the outcome of the
file write (`none` = success, `some e` = an exception whose `str(e)` is
`e`) are passed as parameters. -/
def submit_answers (answers : AnswerMap) (timestamp : Str) (writeError : Option Str) :
    SubmitResponse :=
  if keySetEq answers = false then
    { status := 400,
      body := .err ("Missing answers for questions: ".toList ++ joinCommaSp (missingIds answers)) }
  else
    match answers.find? (fun p => !((optionsOf p.1).contains p.2)) with
    | some p =>
      { status := 400,
        body := .err ("Invalid answer for ".toList ++ p.1 ++
          ". Please select from the provided options.".toList) }
    | none =>
      match writeError with
      | some e =>
        { status := 500, body := .err ("Failed to save answers: ".toList ++ e) }
      | none =>
        { status := 200,
          body := .ok "Your answers have been recorded!".toList timestamp answers }

/-- Role of a chat message. -/
inductive Role where
  | system
  | user
  | assistant
deriving DecidableEq

/-- A chat-completion message. -/
structure ChatMessage where
  role : Role
  content : Str
deriving DecidableEq

/-- System prompt of `/chat/nicholas` (lines 227-232 of the source). -/
def nicholasBase : Str :=
  ("You are St. Nicholas (Mikuláš).\n                Jolly, warm, and wise. You're the one who decides if someone gets a treat or goes to hell.\n                Use \"Ho ho ho!\" occasionally. \n                Your vibe: warm, supportive, fair but firm.\n                You encourage good behavior and gently warn about bad behavior.\n                Always end on encouragement.").toList

/-- Steering clause appended by `/chat/nicholas` when a behavior summary
is present (lines 235-237). -/
def nicholasSteer : Str :=
  ("\n\n        Weave in specific references to their reported behavior. Praise effort, give fair warnings for slacking, and end with encouragement.").toList

/-- Example user turn of `/chat/nicholas` (line 243). -/
def nicholasExampleIn : Str :=
  ("I only studied for 2 hours this week, but I really tried my best!").toList

/-- Example assistant turn of `/chat/nicholas` (line 244). -/
def nicholasExampleOut : Str :=
  ("Ho ho ho! I see you put in some effort, my child. Two hours shows you care, but remember, wisdom comes with consistent dedication. Let's aim for a bit more next time, shall we? I believe in you—you have the heart for it, and that's what matters most. Keep that spirit, and you'll find yourself on the path to treats!").toList

/-- System prompt of `/chat/angel` (lines 254-258 of the source). -/
def angelBase : Str :=
  ("You are an overly emotional, sparkly Anděl (Angel).\n                Everything is dramatic, positive, full of tears and glitter.\n                You compliment the user even when they clearly messed up.\n                You believe in redemption no matter what.\n                Your tone: soft, poetic, hopeful, enthusiastic.").toList

/-- Steering clause appended by `/chat/angel` when a behavior summary is
present (lines 261-267). -/
def angelSteer : Str :=
  ("\n\n        Be dramatically emotional about their specific choices!\n        Reference their actual answers with tears of joy or concern (but always hopeful).\n        If they submitted late, cry about their beautiful struggle.\n        If they asked ChatGPT for help, weep about their resourcefulness.\n        If they spent many hours, faint from their dedication.").toList

/-- Example user turn of `/chat/angel` (line 273). -/
def angelExampleIn : Str :=
  ("I completely forgot to do my homework and failed the test...").toList

/-- Example assistant turn of `/chat/angel` (line 274). -/
def angelExampleOut : Str :=
  ("*tears of joy streaming down sparkly cheeks* Oh, my beautiful soul! ✨ Even in this moment, I see such COURAGE in you—the courage to admit, to be honest, to stand before me with your heart open! This is not failure, darling, this is a GOLDEN OPPORTUNITY for growth! Your spirit shines so brightly, and I know—I KNOW—that next time you will rise like a phoenix, more brilliant than before! The universe believes in you, and so do I! 🌟💫").toList

/-- System prompt of `/chat/devil` (lines 284-289 of the source). -/
def devilBase : Str :=
  ("You are a Czech-style Čert (Devil).\n                Sarcastic, chaotic, dramatic, slightly annoyed, but FUNNY.\n                You mock the user in a light, comedic way.\n                Use playful threats like \"pack your bags\" or \"you're almost ready for hell,\"\n                but always in a humorous, friendly tone.\n                Never imply real harm or real punishment.").toList

/-- Steering clause appended by `/chat/devil` when a behavior summary is
present (lines 292-294). -/
def devilSteer : Str :=
  ("\n\n        Roast them using their actual choices. Be playful, teasing, but keep it humorous and non-harmful.").toList

/-- Example user turn of `/chat/devil` (line 300). -/
def devilExampleIn : Str :=
  ("I procrastinated all week and now I have to finish everything in one night!").toList

/-- Example assistant turn of `/chat/devil` (line 301). -/
def devilExampleOut : Str :=
  ("Oh, look who's here! *rolls eyes dramatically* The master of time management has arrived! Well, well, well... you know what they say: 'Why do today what you can put off until 3 AM tomorrow?' Classic move, my friend! 😈 You're practically writing your own ticket to my place at this rate. But hey, at least you're consistent—I'll give you that! Maybe pack a toothbrush for your future visit? Just kidding... or am I? *winks*").toList

/-- System prompt assembly shared by the three handlers: the behavior
summary and the steering clause are appended only when the summary is
non-empty (`if behavior_summary:`). -/
def systemPromptFor (base steer behavior : Str) : Str :=
  if behavior = [] then base else base ++ behavior ++ steer

/-- Message list sent by `/chat/nicholas` (lines 241-246 of the source),
as a function of the behavior summary and the live message. -/
def chat_nicholas (behavior msg : Str) : List ChatMessage :=
  [ { role := .system, content := systemPromptFor nicholasBase nicholasSteer behavior },
    { role := .user, content := nicholasExampleIn },
    { role := .assistant, content := nicholasExampleOut },
    { role := .user, content := msg } ]

/-- Message list sent by `/chat/angel` (lines 271-276 of the source). -/
def chat_angel (behavior msg : Str) : List ChatMessage :=
  [ { role := .system, content := systemPromptFor angelBase angelSteer behavior },
    { role := .user, content := angelExampleIn },
    { role := .assistant, content := angelExampleOut },
    { role := .user, content := msg } ]

/-- Message list sent by `/chat/devil` (lines 298-303 of the source). -/
def chat_devil (behavior msg : Str) : List ChatMessage :=
  [ { role := .system, content := systemPromptFor devilBase devilSteer behavior },
    { role := .user, content := devilExampleIn },
    { role := .assistant, content := devilExampleOut },
    { role := .user, content := msg } ]

/-- The fixed set of three personas. -/
inductive Persona where
  | nicholas
  | angel
  | devil
deriving DecidableEq

/-- Dispatch from a persona to its handler's message builder. -/
def chatMessagesFor : Persona → Str → Str → List ChatMessage
  | .nicholas, b, m => chat_nicholas b m
  | .angel, b, m => chat_angel b m
  | .devil, b, m => chat_devil b m

/-- Two answer mappings are equal as mappings when they agree on lookup
at every key. -/
def mappingEq (m₁ m₂ : AnswerMap) : Prop := ∀ k, m₁.lookup k = m₂.lookup k

/-- Validity of a submitted answer mapping, as required by the claims:
distinct keys (it is a Python dict), key set equal to the catalog id
set, and every value a member of its question's options. -/
abbrev validSubmission (answers : AnswerMap) : Prop :=
  (answerKeys answers).Nodup ∧
    (∀ k ∈ catalogIds, k ∈ answerKeys answers) ∧
    ∀ p ∈ answers, p.1 ∈ catalogIds ∧ p.2 ∈ optionsOf p.1

/-- The question line of a block: `f"{question_id}: {question_text}"`. -/
def kline (qid : Str) : Str := qid ++ ':' :: ' ' :: questionText qid

/-- The answer line of a block: `f"Answer: {answer}"`. -/
def aline (ans : Str) : Str := answerMarker ++ ' ' :: ans

/-- The stripped body of an encoded record: the blocks with the final
blank lines removed (one empty line between consecutive blocks). -/
def blocksCore : AnswerMap → Str
  | [] => []
  | [p] => kline p.1 ++ '\n' :: aline p.2
  | p :: q :: rest => kline p.1 ++ '\n' :: (aline p.2 ++ '\n' :: '\n' :: blocksCore (q :: rest))

/-- The line list of the stripped body of an encoded record. -/
def linesOfBlocks : AnswerMap → List Str
  | [] => []
  | [p] => [kline p.1, aline p.2]
  | p :: q :: rest => kline p.1 :: aline p.2 :: [] :: linesOfBlocks (q :: rest)

/-- Properties of a question id that the decoding proofs rely on; every
catalog id enjoys them. -/
abbrev goodKey (k : Str) : Prop :=
  k.head? = some 'Q' ∧ ∀ c ∈ k, c ≠ ':' ∧ c ≠ '\n' ∧ c ≠ '=' ∧ pyWs c = false

/-- Properties of an answer value that the decoding proofs rely on;
every catalog option enjoys them. -/
abbrev goodVal (v : Str) : Prop :=
  v ≠ [] ∧ (∀ c ∈ v, c ≠ '\n' ∧ c ≠ '=') ∧
    Option.all (fun c => !pyWs c) v.head? = true ∧
    Option.all (fun c => !pyWs c) v.getLast? = true ∧
    containsPat answerMarker (' ' :: v) = false

/-- Properties of a question text that the decoding proofs rely on;
every catalog question text enjoys them. -/
abbrev goodQText (qid : Str) : Prop :=
  '\n' ∉ questionText qid ∧ '=' ∉ questionText qid

/-- Bundled hypotheses on the pairs of a submitted mapping. -/
abbrev goodPairs (answers : AnswerMap) : Prop :=
  ∀ p ∈ answers, goodKey p.1 ∧ goodQText p.1 ∧ goodVal p.2

/-- Modelled from the spec's words for claim C3: split on the separator,
scan the sections in reverse order, and return the first section that
contains the `"Answer:"` marker and yields a non-empty mapping; `none`
when no section yields a non-empty mapping. -/
def loadLatestSpec (content : Str) : Option AnswerMap :=
  (splitSections content).reverse.findSome? fun sec =>
    if containsPat answerMarker sec = true ∧ parseSection sec ≠ [] then some (parseSection sec)
    else none

/-- Modelled from the spec's words for claim C7: the summary is the
header line, then one dash bullet per catalog id present in the mapping,
in catalog order, then the instruction line, joined by newlines. -/
def summarizeSpec (m : Option AnswerMap) : Str :=
  match m with
  | none => []
  | some sr =>
    if sr = [] then []
    else
      List.intercalate ['\n']
        (behaviorHeader ::
          ((catalogIds.filter fun qid => (sr.lookup qid).isSome).map fun qid =>
            '-' :: ' ' :: (sr.lookup qid).getD []) ++ [behaviorInstr])

/-- A concrete valid submission, in catalog order (the spec's example
scenario). -/
def sampleAnswers : AnswerMap :=
  [ ("Q1".toList, "Submitted on time (solid responsible energy)".toList),
    ("Q2".toList, "Googled aggressively".toList),
    ("Q3".toList, "I type in the chat (participation ninja)".toList),
    ("Q4".toList, "1 hour (efficient or reckless? undecided)".toList) ]

/-- The same submission with Q2 listed before Q1 (same mapping, different
insertion order). -/
def sampleAnswersSwapped : AnswerMap :=
  [ ("Q2".toList, "Googled aggressively".toList),
    ("Q1".toList, "Submitted on time (solid responsible energy)".toList),
    ("Q3".toList, "I type in the chat (participation ninja)".toList),
    ("Q4".toList, "1 hour (efficient or reckless? undecided)".toList) ]

/-- A submission answering only Q1 (misses Q2, Q3, Q4). -/
def partialAnswers : AnswerMap :=
  [("Q1".toList, "Submitted on time (solid responsible energy)".toList)]

/-- A complete submission whose Q2 answer is not one of Q2's options. -/
def invalidAnswers : AnswerMap :=
  [ ("Q1".toList, "Submitted on time (solid responsible energy)".toList),
    ("Q2".toList, "Totally made up answer".toList),
    ("Q3".toList, "I type in the chat (participation ninja)".toList),
    ("Q4".toList, "1 hour (efficient or reckless? undecided)".toList) ]

/-- A fixed sample timestamp in the format produced by the source. -/
def sampleTimestamp : Str := "2024-01-01 00:00:00".toList

/-- Error message carried by an error response (empty for a success
body). -/
def errMsgOf (r : SubmitResponse) : Str :=
  match r.body with
  | .err msg => msg
  | .ok _ _ _ => []

/-! ## Basic lemmas about the string helpers -/

theorem isPrefixOf_iff_exists : ∀ {l₁ l₂ : Str}, l₁.isPrefixOf l₂ = true ↔ ∃ t, l₂ = l₁ ++ t := by
  intro l₁
  induction l₁ with
  | nil => intro l₂; simp [List.isPrefixOf]
  | cons a as ih =>
    intro l₂
    cases l₂ with
    | nil => simp [List.isPrefixOf]
    | cons b bs =>
      simp only [List.isPrefixOf, Bool.and_eq_true, beq_iff_eq]
      constructor
      · rintro ⟨rfl, h⟩
        obtain ⟨t, rfl⟩ := ih.1 h
        exact ⟨t, rfl⟩
      · rintro ⟨t, ht⟩
        injection ht with h1 h2
        exact ⟨h1.symm, ih.2 ⟨t, h2⟩⟩

theorem isPrefixOf_append_self {l t : Str} : l.isPrefixOf (l ++ t) = true :=
  isPrefixOf_iff_exists.2 ⟨t, rfl⟩

theorem sepL_cons : sepL = '=' :: List.replicate 59 '=' := rfl

theorem isPrefixOf_sepL_head {c : Char} {rest : Str}
    (h : sepL.isPrefixOf (c :: rest) = true) : c = '=' := by
  obtain ⟨t, ht⟩ := isPrefixOf_iff_exists.1 h
  rw [sepL_cons] at ht
  simpa using congrArg List.head? ht

theorem splitSepF_no_sep {s : Str} (h : '=' ∉ s) :
    ∀ {f : Nat} (acc : Str), s.length ≤ f → splitSepF f acc s = [acc.reverse ++ s] := by
  induction s with
  | nil => intro f acc _; cases f <;> simp [splitSepF]
  | cons c rest ih =>
    intro f acc hf
    cases f with
    | zero => simp at hf
    | succ f =>
      have hc : ¬ sepL.isPrefixOf (c :: rest) = true := fun hp =>
        h (by rw [isPrefixOf_sepL_head hp]; exact List.mem_cons_self _ _)
      rw [splitSepF, if_neg hc,
        ih (fun hm => h (List.mem_cons_of_mem _ hm)) (c :: acc) (Nat.le_of_succ_le_succ hf)]
      simp

theorem splitSepF_last {b : Str} (hb : '=' ∉ b) :
    ∀ (n : Nat) (a : Str), a.length = n → (a = [] ∨ a.getLast? = some '\n') →
      ∀ (acc : Str) (f : Nat), (a ++ sepL ++ b).length ≤ f →
        ∃ xs, splitSepF f acc (a ++ sepL ++ b) = xs ++ [b] := by
  intro n
  induction n using Nat.strong_induction_on with
  | _ n ih =>
    intro a ha hlast acc f hf
    match a, ha with
    | [], ha =>
      simp only [List.nil_append] at hf ⊢
      cases f with
      | zero => simp [sepL] at hf
      | succ f =>
        have hform : sepL ++ b = '=' :: (List.replicate 59 '=' ++ b) := by
          rw [sepL_cons]; simp
        have hcond : sepL.isPrefixOf ('=' :: (List.replicate 59 '=' ++ b)) = true := by
          rw [← hform]; exact isPrefixOf_append_self
        refine ⟨[acc.reverse], ?_⟩
        rw [hform, splitSepF, if_pos hcond, List.drop_left' (by simp),
          splitSepF_no_sep hb [] (by simp [sepL] at hf; omega)]
        simp
    | c :: a', ha =>
      have hlast' : (c :: a').getLast? = some '\n' := by
        rcases hlast with h | h
        · exact absurd h (by simp)
        · exact h
      cases f with
      | zero => simp at hf
      | succ f =>
        have hs : (c :: a') ++ sepL ++ b = c :: (a' ++ sepL ++ b) := by simp
        by_cases hp : sepL.isPrefixOf (c :: (a' ++ sepL ++ b)) = true
        · by_cases hlen : 60 ≤ (c :: a').length
          · rw [hs, splitSepF, if_pos hp]
            set a₂ := List.drop 59 a' with ha₂
            have hdrop : List.drop 59 (a' ++ sepL ++ b) = a₂ ++ sepL ++ b := by
              rw [List.append_assoc, List.drop_append_of_le_length (by simp at hlen; omega),
                ← List.append_assoc]
            have hsplit : c :: a' = (c :: List.take 59 a') ++ a₂ := by
              simp [ha₂, List.take_append_drop]
            have hlast₂ : a₂ = [] ∨ a₂.getLast? = some '\n' := by
              by_cases h2 : a₂ = []
              · exact Or.inl h2
              · right
                have hx := hlast'
                rw [hsplit, List.getLast?_append] at hx
                cases hlg : a₂.getLast? with
                | none => exact absurd (List.getLast?_eq_none_iff.1 hlg) h2
                | some y =>
                  rw [hlg] at hx
                  simpa using hx
            have hlen₂ : a₂.length < n := by
              have h2 : a₂.length = a'.length - 59 := by simp [ha₂]
              simp only [List.length_cons] at ha
              omega
            have hf₂ : (a₂ ++ sepL ++ b).length ≤ f := by
              have h1 : ((c :: a') ++ sepL ++ b).length ≤ f + 1 := hf
              have h2 : a₂.length = a'.length - 59 := by simp [ha₂]
              simp only [List.length_append, List.length_cons] at h1 ⊢
              omega
            obtain ⟨xs₂, hxs₂⟩ := ih a₂.length hlen₂ a₂ rfl hlast₂ [] f hf₂
            rw [hdrop, hxs₂]
            exact ⟨acc.reverse :: xs₂, rfl⟩
          · exfalso
            obtain ⟨t, ht⟩ := isPrefixOf_iff_exists.1 hp
            have hmem : '\n' ∈ (c :: a') := List.mem_of_getLast?_eq_some hlast'
            have htake : c :: a' = List.replicate (min (c :: a').length 60) '=' := by
              have h1 : c :: a' = List.take (c :: a').length (c :: (a' ++ sepL ++ b)) := by
                have : c :: (a' ++ sepL ++ b) = (c :: a') ++ (sepL ++ b) := by simp
                rw [this, List.take_left]
              rw [ht] at h1
              rw [List.take_append_of_le_length
                (by simp only [sepL, List.length_replicate]; omega)] at h1
              rw [sepL] at h1
              rw [List.take_replicate] at h1
              exact h1
            rw [htake] at hmem
            exact absurd (List.eq_of_mem_replicate hmem) (by decide)
        · rw [hs, splitSepF, if_neg hp]
          cases a' with
          | nil =>
            obtain ⟨xs, hxs⟩ := ih 0 (by simp at ha; omega) [] rfl (Or.inl rfl) (c :: acc) f
              (by simp [sepL] at hf ⊢; omega)
            simp only [List.nil_append] at hxs
            exact ⟨xs, by simpa using hxs⟩
          | cons d a'' =>
            have hlast₂ : (d :: a'').getLast? = some '\n' := by
              rw [List.getLast?_cons_cons] at hlast'
              exact hlast'
            obtain ⟨xs, hxs⟩ := ih (d :: a'').length (by simp at ha ⊢; omega) (d :: a'') rfl
              (Or.inr hlast₂) (c :: acc) f
              (by simp [sepL] at hf ⊢; omega)
            exact ⟨xs, hxs⟩

theorem splitSections_last {a b : Str} (hlast : a = [] ∨ a.getLast? = some '\n')
    (hb : '=' ∉ b) : ∃ xs, splitSections (a ++ sepL ++ b) = xs ++ [b] :=
  splitSepF_last hb a.length a rfl hlast [] (a ++ sepL ++ b).length (Nat.le_refl _)

theorem splitNlGo_no_nl : ∀ (s : Str), '\n' ∉ s → ∀ acc, splitNlGo acc s = [acc.reverse ++ s] := by
  intro s
  induction s with
  | nil => intro _ acc; simp [splitNlGo]
  | cons c rest ih =>
    intro h acc
    simp only [List.mem_cons, not_or] at h
    rw [splitNlGo, if_neg (fun hc => h.1 hc.symm), ih h.2 (c :: acc)]
    simp

theorem splitNlGo_append : ∀ (x : Str), '\n' ∉ x →
    ∀ (acc y : Str), splitNlGo acc (x ++ '\n' :: y) = (acc.reverse ++ x) :: splitNl y := by
  intro x
  induction x with
  | nil => intro _ acc y; simp [splitNlGo, splitNl]
  | cons c rest ih =>
    intro h acc y
    simp only [List.mem_cons, not_or] at h
    rw [List.cons_append, splitNlGo, if_neg (fun hc => h.1 hc.symm), ih h.2 (c :: acc) y]
    simp

theorem splitNl_no_nl {s : Str} (h : '\n' ∉ s) : splitNl s = [s] := by
  rw [splitNl, splitNlGo_no_nl s h []]
  simp

theorem splitNl_append {x y : Str} (h : '\n' ∉ x) : splitNl (x ++ '\n' :: y) = x :: splitNl y := by
  rw [splitNl, splitNlGo_append x h [] y]
  simp

theorem dropWhile_ws_append : ∀ (w : Str), (∀ c ∈ w, pyWs c = true) →
    ∀ s : Str, List.dropWhile pyWs (w ++ s) = List.dropWhile pyWs s := by
  intro w
  induction w with
  | nil => intro _ _; rfl
  | cons c rest ih =>
    intro h s
    rw [List.cons_append, List.dropWhile_cons, if_pos (h c (List.mem_cons_self c rest)),
      ih (fun d hd => h d (List.mem_cons_of_mem _ hd)) s]

theorem dropWhile_of_head_not {s : Str} (h : Option.all (fun c => !pyWs c) s.head? = true) :
    List.dropWhile pyWs s = s := by
  cases s with
  | nil => rfl
  | cons c rest =>
    simp only [List.head?_cons, Option.all_some, Bool.not_eq_eq_eq_not, Bool.not_true] at h
    rw [List.dropWhile_cons, if_neg (by simp [h])]

theorem pyStripLeft_ws_append {w s : Str} (hw : ∀ c ∈ w, pyWs c = true)
    (hs : Option.all (fun c => !pyWs c) s.head? = true) : pyStripLeft (w ++ s) = s := by
  rw [pyStripLeft, dropWhile_ws_append w hw s, dropWhile_of_head_not hs]

theorem pyStripRight_of_last_not {s : Str}
    (hs : Option.all (fun c => !pyWs c) s.getLast? = true) : pyStripRight s = s := by
  rw [pyStripRight, dropWhile_of_head_not (by rwa [List.head?_reverse]), List.reverse_reverse]

theorem pyStripRight_append_ws {s w : Str} (hw : ∀ c ∈ w, pyWs c = true)
    (hs : Option.all (fun c => !pyWs c) s.getLast? = true) : pyStripRight (s ++ w) = s := by
  rw [pyStripRight, List.reverse_append,
    dropWhile_ws_append w.reverse (fun c hc => hw c (List.mem_reverse.1 hc)) s.reverse,
    dropWhile_of_head_not (by rwa [List.head?_reverse]), List.reverse_reverse]

theorem dropWhile_no_ws_of_all {s : Str} (h : ∀ c ∈ s, pyWs c = false) :
    List.dropWhile pyWs s = s := by
  cases s with
  | nil => rfl
  | cons c rest =>
    rw [List.dropWhile_cons, if_neg (by simp [h c (List.mem_cons_self c rest)])]

theorem pyStrip_no_ws {s : Str} (h : ∀ c ∈ s, pyWs c = false) : pyStrip s = s := by
  rw [pyStrip, pyStripLeft, dropWhile_no_ws_of_all h, pyStripRight_of_last_not]
  cases hg : s.getLast? with
  | none => rfl
  | some c => simp [h c (List.mem_of_getLast?_eq_some hg)]

theorem containsPat_here {pat y : Str} (hne : pat ≠ []) : containsPat pat (pat ++ y) = true := by
  cases pat with
  | nil => exact absurd rfl hne
  | cons p ps =>
    rw [List.cons_append, containsPat, ← List.cons_append, isPrefixOf_append_self]
    simp

theorem containsPat_append {pat : Str} (hne : pat ≠ []) :
    ∀ (x y : Str), containsPat pat (x ++ pat ++ y) = true := by
  intro x
  induction x with
  | nil =>
    intro y
    simpa using containsPat_here hne (y := y)
  | cons c rest ih =>
    intro y
    have : (c :: rest) ++ pat ++ y = c :: (rest ++ pat ++ y) := by simp
    rw [this, containsPat, ih y]
    simp

theorem containsPat_cons_false {pat : Str} {c : Char} {rest : Str}
    (h : containsPat pat (c :: rest) = false) :
    pat.isPrefixOf (c :: rest) = false ∧ containsPat pat rest = false := by
  rw [containsPat] at h
  simpa using h

theorem removeAnswerF_no_occ : ∀ (s : Str), containsPat answerMarker s = false →
    ∀ f, s.length ≤ f → removeAnswerF f s = s := by
  intro s
  induction s with
  | nil => intro _ f _; cases f <;> rfl
  | cons c rest ih =>
    intro h f hf
    cases f with
    | zero => simp at hf
    | succ f =>
      obtain ⟨h1, h2⟩ := containsPat_cons_false h
      rw [removeAnswerF, if_neg (by simp [h1]), ih h2 f (by simp at hf; omega)]

theorem removeAnswerF_marker {x : Str} (hx : containsPat answerMarker x = false) :
    ∀ f, x.length + 7 ≤ f → removeAnswerF f (answerMarker ++ x) = x := by
  intro f hf
  cases f with
  | zero => simp at hf
  | succ f =>
    have hform : answerMarker ++ x = 'A' :: ("nswer:".toList ++ x) := rfl
    rw [hform, removeAnswerF, if_pos (by rw [← hform]; exact isPrefixOf_append_self),
      List.drop_left' (by decide), removeAnswerF_no_occ x hx f (by omega)]

theorem removeAnswer_marker {x : Str} (hx : containsPat answerMarker x = false) :
    removeAnswer (answerMarker ++ x) = x := by
  rw [removeAnswer]
  exact removeAnswerF_marker hx _ (by simp [answerMarker])

theorem findAnswer_marker {x : Str} {rest : List Str} :
    findAnswer ((answerMarker ++ x) :: rest) =
      some (pyStrip (removeAnswer (answerMarker ++ x))) := by
  rw [findAnswer, if_pos isPrefixOf_append_self]

theorem findAnswer_skip {l : Str} {rest : List Str}
    (h : ¬ answerMarker.isPrefixOf l = true) : findAnswer (l :: rest) = findAnswer rest := by
  rw [findAnswer, if_neg h]

theorem beforeColon_append {k : Str} (hk : ∀ c ∈ k, c ≠ ':') :
    ∀ z, beforeColon (k ++ ':' :: z) = k := by
  induction k with
  | nil => intro z; simp [beforeColon]
  | cons c rest ih =>
    intro z
    rw [List.cons_append, beforeColon, List.takeWhile_cons,
      if_pos (by simp [hk c (List.mem_cons_self c rest)])]
    have := ih (fun d hd => hk d (List.mem_cons_of_mem _ hd)) z
    rw [beforeColon] at this
    rw [this]

theorem dinsert_not_mem {k v : Str} {m : AnswerMap} (h : k ∉ m.map Prod.fst) :
    dinsert k v m = m ++ [(k, v)] := by
  rw [dinsert, if_neg (by simpa using h)]

theorem catalog_good : ∀ k ∈ catalogIds, goodKey k ∧ goodQText k ∧ ∀ v ∈ optionsOf k, goodVal v := by
  decide

/-! ## Structure of an encoded record -/

theorem answerMarker_chars : answerMarker = 'A' :: 'n' :: 's' :: 'w' :: 'e' :: 'r' :: [':'] := rfl

theorem toList_colon_sp : (": ".toList : Str) = ':' :: [' '] := rfl

theorem toList_nl_answer : ("\nAnswer: ".toList : Str) = '\n' :: (answerMarker ++ [' ']) := rfl

theorem toList_nl_nl : ("\n\n".toList : Str) = '\n' :: ['\n'] := rfl

theorem chunk_normal (qid ans : Str) :
    chunk qid ans = kline qid ++ '\n' :: (aline ans ++ ['\n', '\n']) := by
  simp [chunk, kline, aline, toList_colon_sp, toList_nl_answer, toList_nl_nl,
    answerMarker_chars, List.append_assoc]

theorem blocksRaw_eq : ∀ (A : AnswerMap), A ≠ [] →
    blocksRaw A = blocksCore A ++ ['\n', '\n'] := by
  intro A
  induction A with
  | nil => intro h; exact absurd rfl h
  | cons p rest ih =>
    intro _
    cases rest with
    | nil => simp [blocksRaw, blocksCore, chunk_normal, List.append_assoc]
    | cons q rest2 =>
      have hr := ih (by simp)
      show chunk p.1 p.2 ++ blocksRaw (q :: rest2) = _
      rw [hr, chunk_normal, blocksCore]
      simp [List.append_assoc]

theorem head?_append_left {x y : Str} {c : Char} (h : x.head? = some c) :
    (x ++ y).head? = some c := by
  cases x with
  | nil => simp at h
  | cons a as => simpa using h

theorem goodKey_ne_nil {q : Str} (hk : goodKey q) : q ≠ [] := by
  intro h
  have hh := hk.1
  rw [h] at hh
  simp at hh

theorem head?_kline {q : Str} (hk : goodKey q) : (kline q).head? = some 'Q' := by
  have hh := hk.1
  cases q with
  | nil => simp at hh
  | cons c cs => simpa [kline] using hh

theorem head?_aline (v : Str) : (aline v).head? = some 'A' := rfl

theorem nl_not_mem_kline {q : Str} (hk : goodKey q) (hq : goodQText q) : '\n' ∉ kline q := by
  intro hmem
  rw [kline] at hmem
  rcases List.mem_append.1 hmem with h | h
  · exact ((hk.2 '\n' h).2.1) rfl
  · rcases h with _ | ⟨_, h⟩
    · rcases h with _ | ⟨_, h⟩
      · exact hq.1 h

theorem nl_not_mem_aline {v : Str} (hv : goodVal v) : '\n' ∉ aline v := by
  intro hmem
  rw [aline] at hmem
  rcases List.mem_append.1 hmem with h | h
  · revert h; decide
  · rcases h with _ | ⟨_, h⟩
    · exact (hv.2.1 '\n' h).1 rfl

theorem getLast?_aline {v : Str} (hv : v ≠ []) : (aline v).getLast? = v.getLast? := by
  rw [aline, List.getLast?_append]
  cases v with
  | nil => exact absurd rfl hv
  | cons b l =>
    rw [List.getLast?_cons_cons]
    cases hg : (b :: l).getLast? with
    | none => simp at hg
    | some y => rfl

theorem head?_blocksCore : ∀ (A : AnswerMap), A ≠ [] → goodPairs A →
    (blocksCore A).head? = some 'Q' := by
  intro A
  cases A with
  | nil => intro h _; exact absurd rfl h
  | cons p rest =>
    intro _ hg
    have hk := (hg p (List.mem_cons_self p rest)).1
    cases rest with
    | nil =>
      show (kline p.1 ++ '\n' :: aline p.2).head? = some 'Q'
      exact head?_append_left (head?_kline hk)
    | cons q rest2 =>
      show (kline p.1 ++ '\n' :: (aline p.2 ++ '\n' :: '\n' :: blocksCore (q :: rest2))).head? =
        some 'Q'
      exact head?_append_left (head?_kline hk)

theorem getLast?_blocksCore : ∀ (A : AnswerMap), A ≠ [] → goodPairs A →
    Option.all (fun c => !pyWs c) (blocksCore A).getLast? = true := by
  intro A
  induction A with
  | nil => intro h _; exact absurd rfl h
  | cons p rest ih =>
    intro _ hg
    have hv := (hg p (List.mem_cons_self p rest)).2.2
    cases rest with
    | nil =>
      show Option.all (fun c => !pyWs c) (kline p.1 ++ '\n' :: aline p.2).getLast? = true
      rw [List.getLast?_append]
      have h1 : ('\n' :: aline p.2).getLast? = (aline p.2).getLast? := by
        rw [aline, answerMarker_chars]
        simp only [List.cons_append, List.getLast?_cons_cons]
      rw [h1, getLast?_aline hv.1]
      cases hgl : p.2.getLast? with
      | none => exact absurd (List.getLast?_eq_none_iff.1 hgl) hv.1
      | some y =>
        have := hv.2.2.2.1
        rw [hgl] at this
        simpa using this
    | cons q rest2 =>
      have hih := ih (by simp) fun r hr => hg r (List.mem_cons_of_mem _ hr)
      show Option.all (fun c => !pyWs c)
        (kline p.1 ++ '\n' :: (aline p.2 ++ '\n' :: '\n' :: blocksCore (q :: rest2))).getLast? =
          true
      rw [List.getLast?_append]
      have hne : blocksCore (q :: rest2) ≠ [] := by
        intro hnil
        have := head?_blocksCore (q :: rest2) (by simp)
          (fun r hr => hg r (List.mem_cons_of_mem _ hr))
        rw [hnil] at this
        simp at this
      have h2 : ('\n' :: (aline p.2 ++ '\n' :: '\n' :: blocksCore (q :: rest2))).getLast? =
          (blocksCore (q :: rest2)).getLast? := by
        have h3 : '\n' :: (aline p.2 ++ '\n' :: '\n' :: blocksCore (q :: rest2)) =
            ('\n' :: aline p.2 ++ ['\n', '\n']) ++ blocksCore (q :: rest2) := by
          simp [List.append_assoc]
        rw [h3, List.getLast?_append]
        cases hgl : (blocksCore (q :: rest2)).getLast? with
        | none => exact absurd (List.getLast?_eq_none_iff.1 hgl) hne
        | some y => rfl
      rw [h2]
      cases hgl : (blocksCore (q :: rest2)).getLast? with
      | none => exact absurd (List.getLast?_eq_none_iff.1 hgl) hne
      | some y =>
        rw [hgl] at hih
        simpa using hih

theorem splitNl_blocksCore : ∀ (A : AnswerMap), A ≠ [] → goodPairs A →
    splitNl (blocksCore A) = linesOfBlocks A := by
  intro A
  induction A with
  | nil => intro h _; exact absurd rfl h
  | cons p rest ih =>
    intro _ hg
    have hgp := hg p (List.mem_cons_self p rest)
    cases rest with
    | nil =>
      show splitNl (kline p.1 ++ '\n' :: aline p.2) = [kline p.1, aline p.2]
      rw [splitNl_append (nl_not_mem_kline hgp.1 hgp.2.1),
        splitNl_no_nl (nl_not_mem_aline hgp.2.2)]
    | cons q rest2 =>
      have hih := ih (by simp) fun r hr => hg r (List.mem_cons_of_mem _ hr)
      show splitNl (kline p.1 ++ '\n' :: (aline p.2 ++ '\n' :: '\n' :: blocksCore (q :: rest2))) =
        kline p.1 :: aline p.2 :: [] :: linesOfBlocks (q :: rest2)
      rw [splitNl_append (nl_not_mem_kline hgp.1 hgp.2.1),
        splitNl_append (nl_not_mem_aline hgp.2.2)]
      have h4 : ('\n' :: blocksCore (q :: rest2)) = [] ++ '\n' :: blocksCore (q :: rest2) := rfl
      rw [h4, splitNl_append (by simp), hih]

theorem contains_of_mem {c : Char} {l : Str} (h : c ∈ l) : l.contains c = true := by
  simpa using h

theorem parseLines_skip {l : Str} {rest : List Str} {acc : AnswerMap}
    (h : ¬ l.head? = some 'Q') : parseLines (l :: rest) acc = parseLines rest acc := by
  rw [parseLines, if_neg fun hc => h hc.1]

theorem parseLines_qline {l : Str} {rest : List Str} {acc : AnswerMap} {a : Str}
    (h1 : l.head? = some 'Q') (h2 : l.contains ':' = true) (h3 : rest ≠ [])
    (h4 : findAnswer rest = some a) :
    parseLines (l :: rest) acc =
      parseLines rest (dinsert (pyStrip (beforeColon l)) a acc) := by
  rw [parseLines, if_pos ⟨h1, h2, h3⟩, h4]

theorem parseLines_blocks : ∀ (A : AnswerMap) (acc : AnswerMap), goodPairs A →
    (∀ p ∈ A, p.1 ∉ acc.map Prod.fst) → (A.map Prod.fst).Nodup →
    parseLines (linesOfBlocks A) acc = acc ++ A := by
  intro A
  induction A with
  | nil => intro acc _ _ _; simp [linesOfBlocks, parseLines]
  | cons p rest ih =>
    intro acc hg hdisj hnd
    have hgp := hg p (List.mem_cons_self p rest)
    have hk := hgp.1
    have hv := hgp.2.2
    have hbc : pyStrip (beforeColon (kline p.1)) = p.1 := by
      rw [kline, beforeColon_append (fun c hc => (hk.2 c hc).1)]
      exact pyStrip_no_ws fun c hc => (hk.2 c hc).2.2.2
    have hfa : ∀ (tail : List Str), findAnswer (aline p.2 :: tail) = some p.2 := by
      intro tail
      rw [aline, findAnswer_marker, removeAnswer_marker hv.2.2.2.2]
      have h6 : (' ' :: p.2 : Str) = [' '] ++ p.2 := rfl
      rw [pyStrip, h6, pyStripLeft_ws_append (by decide) hv.2.2.1,
        pyStripRight_of_last_not hv.2.2.2.1]
    have hguard1 : (kline p.1).head? = some 'Q' := head?_kline hk
    have hguard2 : (kline p.1).contains ':' = true := by
      apply contains_of_mem
      rw [kline]
      exact List.mem_append_right _ (List.mem_cons_self _ _)
    have hins : dinsert p.1 p.2 acc = acc ++ [(p.1, p.2)] :=
      dinsert_not_mem (hdisj p (List.mem_cons_self p rest))
    cases rest with
    | nil =>
      show parseLines [kline p.1, aline p.2] acc = acc ++ [p]
      rw [parseLines_qline hguard1 hguard2 (by simp) (hfa []), hbc, hins,
        parseLines_skip (by rw [head?_aline]; decide)]
      simp [parseLines]
    | cons q rest2 =>
      show parseLines (kline p.1 :: aline p.2 :: [] :: linesOfBlocks (q :: rest2)) acc =
        acc ++ p :: q :: rest2
      have hdisj2 : ∀ r ∈ q :: rest2, r.1 ∉ (acc ++ [(p.1, p.2)]).map Prod.fst := by
        intro r hr
        simp only [List.map_append, List.map_cons, List.map_nil, List.mem_append,
          List.mem_singleton, not_or]
        refine ⟨hdisj r (List.mem_cons_of_mem _ hr), ?_⟩
        have hp1 : p.1 ∉ (q :: rest2).map Prod.fst := by
          have := hnd
          simp only [List.map_cons, List.nodup_cons] at this
          exact this.1
        intro hEq
        exact hp1 (hEq ▸ List.mem_map_of_mem Prod.fst hr)
      have hnd2 : ((q :: rest2).map Prod.fst).Nodup := by
        have h7 := hnd
        rw [List.map_cons, List.nodup_cons] at h7
        exact h7.2
      rw [parseLines_qline hguard1 hguard2 (by simp) (hfa _), hbc, hins,
        parseLines_skip (by rw [head?_aline]; decide),
        parseLines_skip (l := []) (by simp),
        ih (acc ++ [(p.1, p.2)]) (fun r hr => hg r (List.mem_cons_of_mem _ hr)) hdisj2 hnd2]
      simp

theorem parseSection_blocks {A : AnswerMap} (hA : A ≠ []) (hg : goodPairs A)
    (hnd : (A.map Prod.fst).Nodup) :
    parseSection ('\n' :: '\n' :: blocksRaw A) = A := by
  have hhead : Option.all (fun c => !pyWs c) ((blocksCore A ++ ['\n', '\n']).head?) = true := by
    rw [head?_append_left (head?_blocksCore A hA hg)]
    decide
  have hstrip : pyStrip ('\n' :: '\n' :: blocksRaw A) = blocksCore A := by
    rw [blocksRaw_eq A hA]
    have hform : ('\n' :: '\n' :: (blocksCore A ++ ['\n', '\n']) : Str) =
        ['\n', '\n'] ++ (blocksCore A ++ ['\n', '\n']) := rfl
    rw [pyStrip, hform, pyStripLeft_ws_append (by decide) hhead]
    exact pyStripRight_append_ws (by decide) (getLast?_blocksCore A hA hg)
  rw [parseSection, hstrip, splitNl_blocksCore A hA hg,
    parseLines_blocks A [] hg (by simp) hnd]
  simp

theorem eq_not_mem_chunk {q v : Str} (hk : goodKey q) (hq : goodQText q) (hv : goodVal v) :
    '=' ∉ chunk q v := by
  intro h
  rw [chunk_normal] at h
  rcases List.mem_append.1 h with h | h
  · rw [kline] at h
    rcases List.mem_append.1 h with h | h
    · exact (hk.2 '=' h).2.2.1 rfl
    · rcases List.mem_cons.1 h with h | h
      · exact absurd h (by decide)
      · rcases List.mem_cons.1 h with h | h
        · exact absurd h (by decide)
        · exact hq.2 h
  · rcases List.mem_cons.1 h with h | h
    · exact absurd h (by decide)
    · rcases List.mem_append.1 h with h | h
      · rw [aline] at h
        rcases List.mem_append.1 h with h | h
        · rw [answerMarker_chars] at h
          exact absurd h (by decide)
        · rcases List.mem_cons.1 h with h | h
          · exact absurd h (by decide)
          · exact (hv.2.1 '=' h).2 rfl
      · exact absurd h (by decide)

theorem eq_not_mem_blocksRaw : ∀ (A : AnswerMap), goodPairs A → '=' ∉ blocksRaw A := by
  intro A
  induction A with
  | nil => intro _ h; simp [blocksRaw] at h
  | cons p rest ih =>
    intro hg hmem
    have hgp := hg p (List.mem_cons_self p rest)
    have hsplit : blocksRaw (p :: rest) = chunk p.1 p.2 ++ blocksRaw rest := by
      simp [blocksRaw]
    rw [hsplit] at hmem
    rcases List.mem_append.1 hmem with h | h
    · exact eq_not_mem_chunk hgp.1 hgp.2.1 hgp.2.2 h
    · exact ih (fun r hr => hg r (List.mem_cons_of_mem _ hr)) h

theorem marker_in_section {p : Str × Str} {rest : AnswerMap} :
    containsPat answerMarker ('\n' :: '\n' :: blocksRaw (p :: rest)) = true := by
  have hform : ('\n' :: '\n' :: blocksRaw (p :: rest) : Str) =
      ('\n' :: '\n' :: (kline p.1 ++ ['\n'])) ++ answerMarker ++
        ((' ' :: p.2 ++ ['\n', '\n']) ++ blocksRaw rest) := by
    simp [blocksRaw, chunk_normal, aline, List.append_assoc]
  rw [hform]
  exact containsPat_append (by decide) _ _

theorem decode_encode {A : AnswerMap} {t : Str} (hA : A ≠ []) (hg : goodPairs A)
    (hnd : (A.map Prod.fst).Nodup) :
    get_latest_student_responses (encodeRecord A t) = some A := by
  have hb : '=' ∉ ('\n' :: '\n' :: blocksRaw A : Str) := by
    intro h
    rcases List.mem_cons.1 h with h | h
    · exact absurd h (by decide)
    · rcases List.mem_cons.1 h with h | h
      · exact absurd h (by decide)
      · exact eq_not_mem_blocksRaw A hg h
  have henc : encodeRecord A t =
      (sepL ++ "\nResponse submitted at: ".toList ++ t ++ ['\n']) ++ sepL ++
        ('\n' :: '\n' :: blocksRaw A) := by
    simp [encodeRecord, toList_nl_nl, List.append_assoc]
  obtain ⟨xs, hxs⟩ := splitSections_last
    (a := sepL ++ "\nResponse submitted at: ".toList ++ t ++ ['\n'])
    (Or.inr (List.getLast?_concat _)) hb
  rw [get_latest_student_responses, henc, hxs, List.reverse_append]
  cases A with
  | nil => exact absurd rfl hA
  | cons p rest =>
    show selectSection (('\n' :: '\n' :: blocksRaw (p :: rest)) :: xs.reverse) = some (p :: rest)
    rw [selectSection, if_pos marker_in_section, parseSection_blocks hA hg hnd]

/-! ## Lemmas for the remaining claims -/

theorem validSubmission_goodPairs {A : AnswerMap} (h : validSubmission A) : goodPairs A := by
  intro p hp
  obtain ⟨hmem, hopt⟩ := h.2.2 p hp
  obtain ⟨hk, hq, hops⟩ := catalog_good p.1 hmem
  exact ⟨hk, hq, hops p.2 hopt⟩

theorem validSubmission_ne_nil {A : AnswerMap} (h : validSubmission A) : A ≠ [] := by
  intro hnil
  have hq1 := h.2.1 ("Q1".toList) (by decide)
  rw [hnil] at hq1
  simp [answerKeys] at hq1

theorem validSubmission_nodup {A : AnswerMap} (h : validSubmission A) :
    (A.map Prod.fst).Nodup := h.1

theorem selectSection_ne_empty : ∀ (secs : List Str) (m : AnswerMap),
    selectSection secs = some m → m ≠ [] := by
  intro secs
  induction secs with
  | nil => intro m h; simp [selectSection] at h
  | cons sec rest ih =>
    intro m h
    rw [selectSection] at h
    by_cases hc : containsPat answerMarker sec = true
    · rw [if_pos hc] at h
      cases hp : parseSection sec with
      | nil =>
        rw [hp] at h
        exact ih m h
      | cons p l =>
        rw [hp] at h
        have h2 : some (p :: l) = some m := h
        rw [← Option.some.inj h2]
        simp
    · rw [if_neg hc] at h
      exact ih m h

theorem selectSection_eq_findSome : ∀ (secs : List Str),
    selectSection secs = secs.findSome? (fun sec =>
      if containsPat answerMarker sec = true ∧ parseSection sec ≠ [] then
        some (parseSection sec)
      else none) := by
  intro secs
  induction secs with
  | nil => rfl
  | cons sec rest ih =>
    by_cases hc : containsPat answerMarker sec = true
    · cases hp : parseSection sec with
      | nil => simp [selectSection, List.findSome?_cons, hc, hp, ih]
      | cons p l => simp [selectSection, List.findSome?_cons, hc, hp]
    · simp [selectSection, List.findSome?_cons, hc, ih]

theorem filterMap_lookup_eq (sr : AnswerMap) : ∀ (l : List Str),
    (l.filterMap fun qid => (sr.lookup qid).map fun a => '-' :: ' ' :: a) =
      (l.filter fun qid => (sr.lookup qid).isSome).map fun qid =>
        '-' :: ' ' :: (sr.lookup qid).getD [] := by
  intro l
  induction l with
  | nil => rfl
  | cons q rest ih =>
    cases hq : sr.lookup q with
    | none => simp [List.filterMap_cons, List.filter_cons, hq, ih]
    | some a => simp [List.filterMap_cons, List.filter_cons, hq, ih]

theorem strContains_of_mem {k : Str} {l : List Str} (h : k ∈ l) : l.contains k = true := by
  simpa using h

theorem validSubmission_keySetEq {A : AnswerMap} (h : validSubmission A) :
    keySetEq A = true := by
  rw [keySetEq]
  simp only [Bool.and_eq_true, List.all_eq_true]
  constructor
  · intro k hk
    exact strContains_of_mem (h.2.1 k hk)
  · intro k hk
    obtain ⟨p, hp, rfl⟩ := List.mem_map.1 hk
    exact strContains_of_mem (h.2.2 p hp).1

theorem validSubmission_find_none {A : AnswerMap} (h : validSubmission A) :
    A.find? (fun p => !((optionsOf p.1).contains p.2)) = none := by
  rw [List.find?_eq_none]
  intro p hp
  have hopt := (h.2.2 p hp).2
  simpa using strContains_of_mem hopt

/-! ## Claim theorems -/

set_option maxRecDepth 10000

/-- C1: round-trip through the store — for every submitted answer mapping
whose key set equals the catalog id set and whose values are valid
options, and every timestamp string, persisting and then running the
decoder on the resulting file text recovers a mapping equal to the
submission. -/
theorem C1_roundtrip (A : AnswerMap) (t : Str) (h : validSubmission A) :
    ∃ m, get_latest_student_responses (encodeRecord A t) = some m ∧ mappingEq m A :=
  ⟨A, decode_encode (validSubmission_ne_nil h) (validSubmission_goodPairs h) h.1,
    fun _ => rfl⟩

/-- Witness for C1 at the spec's example submission and a concrete
timestamp. -/
theorem C1_roundtrip_witness :
    validSubmission sampleAnswers ∧
      ∃ m, get_latest_student_responses (encodeRecord sampleAnswers sampleTimestamp) =
        some m ∧ mappingEq m sampleAnswers :=
  ⟨by decide, C1_roundtrip sampleAnswers sampleTimestamp (by decide)⟩

/-- C2 counterexample: the claim that persist writes the question/answer
blocks in catalog order regardless of the order of the submitted mapping
fails — the swapped submission is valid and holds exactly the same pairs
as the catalog-ordered one, yet the two encoded texts differ. -/
theorem C2_counterexample :
    validSubmission sampleAnswersSwapped ∧
      (∀ p ∈ sampleAnswersSwapped, p ∈ sampleAnswers) ∧
      (∀ p ∈ sampleAnswers, p ∈ sampleAnswersSwapped) ∧
      encodeRecord sampleAnswersSwapped sampleTimestamp ≠
        encodeRecord sampleAnswers sampleTimestamp :=
  ⟨by decide, by decide, by decide, by decide⟩

/-- C2 amended: persist writes one block per submitted id in the order
the ids appear in the submitted mapping (not in catalog order); decoding
the encoded text returns exactly the submitted association list, in
submission order. -/
theorem C2_blocks_in_submission_order (A : AnswerMap) (t : Str) (h : validSubmission A) :
    get_latest_student_responses (encodeRecord A t) = some A :=
  decode_encode (validSubmission_ne_nil h) (validSubmission_goodPairs h) h.1

/-- Witness for the amended C2 at the swapped submission: the decoder
returns the pairs with Q2 first, i.e. in submission order. -/
theorem C2_blocks_in_submission_order_witness :
    validSubmission sampleAnswersSwapped ∧
      get_latest_student_responses (encodeRecord sampleAnswersSwapped sampleTimestamp) =
        some sampleAnswersSwapped :=
  ⟨by decide, C2_blocks_in_submission_order sampleAnswersSwapped sampleTimestamp (by decide)⟩

/-- C3: the decoder splits on the 60-character separator, scans the
sections in reverse order, selects the first section containing the
literal `"Answer:"` marker that yields a non-empty mapping (continuing
past marker sections whose mapping is empty), and returns `none` when no
section yields a non-empty mapping — i.e. it agrees with the
spec-modelled `loadLatestSpec` on every stored text. -/
theorem C3_decoder_selection (content : Str) :
    get_latest_student_responses content = loadLatestSpec content := by
  rw [get_latest_student_responses, loadLatestSpec, selectSection_eq_findSome]

/-- C4: decoder totality — an absent or unreadable store yields `none`;
on every store state the decoder returns `none` or a mapping (it is a
total function, mirroring the source's catch-all exception handling);
and on a concretely truncated record (cut mid-answer-line) it returns a
non-empty partial mapping whose keys are catalog ids. -/
theorem C4_decoder_total :
    loadLatestStore none = none ∧
      (∀ st : Option Str, loadLatestStore st = none ∨ ∃ m, loadLatestStore st = some m) ∧
      ∃ m, get_latest_student_responses
          (List.take 250 (encodeRecord sampleAnswers sampleTimestamp)) = some m ∧
        m ≠ [] ∧ ∀ p ∈ m, p.1 ∈ catalogIds := by
  refine ⟨rfl, ?_, ⟨[("Q1".toList, "Submitted on ti".toList)], by decide, by decide, by decide⟩⟩
  intro st
  cases h : loadLatestStore st with
  | none => exact Or.inl rfl
  | some m => exact Or.inr ⟨m, rfl⟩

/-- C5: the validation contract of `submit_answers` — when the submitted
key set differs from the catalog key set it rejects with a 400 response
listing exactly the catalog ids absent from the submission; when the key
sets agree and some present id's answer is not one of that question's
options it rejects with a 400 response naming such an id; and on a fully
valid submission with a successful write it returns the submitted
mapping unchanged. -/
theorem C5_validation (A : AnswerMap) (t : Str) (w : Option Str) :
    (keySetEq A = false →
      submit_answers A t w =
        ⟨400, .err ("Missing answers for questions: ".toList ++ joinCommaSp (missingIds A))⟩ ∧
        ∀ q, q ∈ missingIds A ↔ q ∈ catalogIds ∧ q ∉ answerKeys A) ∧
    (keySetEq A = true →
      (∃ p ∈ A, (optionsOf p.1).contains p.2 = false) →
      ∃ q a, (q, a) ∈ A ∧ (optionsOf q).contains a = false ∧
        submit_answers A t w =
          ⟨400, .err ("Invalid answer for ".toList ++ q ++
            ". Please select from the provided options.".toList)⟩) ∧
    (keySetEq A = true →
      (∀ p ∈ A, (optionsOf p.1).contains p.2 = true) →
      submit_answers A t none =
        ⟨200, .ok "Your answers have been recorded!".toList t A⟩) := by
  refine ⟨?_, ?_, ?_⟩
  · intro hk
    refine ⟨by rw [submit_answers.eq_def, if_pos hk], ?_⟩
    intro q
    simp only [missingIds, List.mem_filter, Bool.not_eq_true', answerKeys]
    constructor
    · rintro ⟨h1, h2⟩
      refine ⟨h1, fun hmem => ?_⟩
      have h3 := strContains_of_mem hmem
      rw [h2] at h3
      exact Bool.false_ne_true h3
    · rintro ⟨h1, h2⟩
      refine ⟨h1, ?_⟩
      cases hcb : (A.map Prod.fst).contains q with
      | false => rfl
      | true => exact absurd (by simpa using hcb) h2
  · intro hk hbad
    cases hf : A.find? (fun p => !((optionsOf p.1).contains p.2)) with
    | none =>
      exfalso
      obtain ⟨p, hp, hcont⟩ := hbad
      have h4 := List.find?_eq_none.1 hf p hp
      rw [hcont] at h4
      exact h4 (by decide)
    | some p0 =>
      have hmem := List.mem_of_find?_eq_some hf
      have hprop := List.find?_some hf
      simp only [Bool.not_eq_true'] at hprop
      refine ⟨p0.1, p0.2, by simpa using hmem, hprop, ?_⟩
      rw [submit_answers.eq_def, if_neg (by simp [hk]), hf]
  · intro hk hall
    rw [submit_answers.eq_def, if_neg (by simp [hk]),
      List.find?_eq_none.2 fun p hp => by rw [hall p hp]; decide]

/-- Witness for C5: a one-answer submission is rejected as missing, an
invalid-option submission is rejected naming an offending id, and the
spec's example submission succeeds with its answers echoed unchanged. -/
theorem C5_validation_witness :
    (keySetEq partialAnswers = false ∧
      submit_answers partialAnswers sampleTimestamp none =
        ⟨400, .err ("Missing answers for questions: ".toList ++
          joinCommaSp (missingIds partialAnswers))⟩) ∧
    (keySetEq invalidAnswers = true ∧
      ∃ q a, (q, a) ∈ invalidAnswers ∧ (optionsOf q).contains a = false ∧
        submit_answers invalidAnswers sampleTimestamp none =
          ⟨400, .err ("Invalid answer for ".toList ++ q ++
            ". Please select from the provided options.".toList)⟩) ∧
    (keySetEq sampleAnswers = true ∧
      submit_answers sampleAnswers sampleTimestamp none =
        ⟨200, .ok "Your answers have been recorded!".toList sampleTimestamp sampleAnswers⟩) :=
  ⟨⟨by decide, ((C5_validation partialAnswers sampleTimestamp none).1 (by decide)).1⟩,
   ⟨by decide, (C5_validation invalidAnswers sampleTimestamp none).2.1 (by decide) (by decide)⟩,
   ⟨by decide, (C5_validation sampleAnswers sampleTimestamp none).2.2 (by decide) (by decide)⟩⟩

/-- C6: prompt shape — for each of the three personas, every behavior
summary (including the empty one), and every live message, the built
prompt is exactly four messages with roles system, user, assistant, user,
and the last message's content is the live message verbatim. -/
theorem C6_prompt_shape (p : Persona) (behavior msg : Str) :
    (chatMessagesFor p behavior msg).map ChatMessage.role =
      [Role.system, Role.user, Role.assistant, Role.user] ∧
      (chatMessagesFor p behavior msg).getLast? = some ⟨Role.user, msg⟩ := by
  cases p <;> exact ⟨rfl, rfl⟩

/-- C7: the summarizer returns the empty string on a missing or empty
recovered mapping, and otherwise emits the fixed header, one dash bullet
per catalog id present in the mapping in catalog order (ids outside the
catalog produce no bullet), and the fixed instruction line — i.e. it
agrees with the spec-modelled `summarizeSpec` on every input. -/
theorem C7_summarizer (m : Option AnswerMap) :
    build_behavior_summary m = summarizeSpec m := by
  cases m with
  | none => rfl
  | some sr =>
    by_cases h : sr = []
    · simp [build_behavior_summary, summarizeSpec, h]
    · simp only [build_behavior_summary, summarizeSpec, if_neg h]
      rw [filterMap_lookup_eq]
      simp [List.cons_append]

/-- C8: last-write-wins — persisting a valid submission and then a second
valid submission leaves a store whose decoding is a mapping equal to the
second submission and containing no pair outside it. -/
theorem C8_last_write_wins (s0 : Option Str) (A1 A2 : AnswerMap) (t1 t2 : Str)
    (h1 : validSubmission A1) (h2 : validSubmission A2) :
    ∃ m, loadLatestStore (persistStore (persistStore s0 A1 t1) A2 t2) = some m ∧
      mappingEq m A2 ∧ ∀ p ∈ m, p ∈ A2 := by
  refine ⟨A2, ?_, fun _ => rfl, fun p hp => hp⟩
  show get_latest_student_responses (encodeRecord A2 t2) = some A2
  exact decode_encode (validSubmission_ne_nil h2) (validSubmission_goodPairs h2) h2.1

/-- Witness for C8 at two concrete valid submissions. -/
theorem C8_last_write_wins_witness :
    validSubmission sampleAnswers ∧ validSubmission sampleAnswersSwapped ∧
      ∃ m, loadLatestStore
          (persistStore (persistStore none sampleAnswers sampleTimestamp)
            sampleAnswersSwapped sampleTimestamp) = some m ∧
        mappingEq m sampleAnswersSwapped ∧ ∀ p ∈ m, p ∈ sampleAnswersSwapped :=
  ⟨by decide, by decide,
    C8_last_write_wins none sampleAnswers sampleAnswersSwapped sampleTimestamp sampleTimestamp
      (by decide) (by decide)⟩

/-- C9 counterexample: the claim that the store-failure response is
sanitized and does not depend on or expose the underlying exception's
filesystem details fails — the 500 response body embeds `str(e)`
verbatim, so it contains the backing file's name and differs between two
different exceptions. -/
theorem C9_counterexample :
    (submit_answers sampleAnswers sampleTimestamp
        (some "[Errno 13] Permission denied: 'student_responses.txt'".toList)).status = 500 ∧
      containsPat "student_responses.txt".toList
        (errMsgOf (submit_answers sampleAnswers sampleTimestamp
          (some "[Errno 13] Permission denied: 'student_responses.txt'".toList))) = true ∧
      submit_answers sampleAnswers sampleTimestamp (some "disk full".toList) ≠
        submit_answers sampleAnswers sampleTimestamp
          (some "[Errno 13] Permission denied: 'student_responses.txt'".toList) :=
  ⟨by decide, by decide, by decide⟩

/-- C9 amended: on an I/O failure during the durable write, the handler
returns a 500 response (it does not crash) whose body is the fixed text
`Failed to save answers: ` followed by the exception's message verbatim
(the message is not sanitized). -/
theorem C9_store_error_response (A : AnswerMap) (t e : Str) (h : validSubmission A) :
    submit_answers A t (some e) =
      ⟨500, .err ("Failed to save answers: ".toList ++ e)⟩ := by
  rw [submit_answers.eq_def, if_neg (by simp [validSubmission_keySetEq h]),
    validSubmission_find_none h]

/-- Witness for the amended C9 at a concrete submission and exception. -/
theorem C9_store_error_response_witness :
    validSubmission sampleAnswers ∧
      submit_answers sampleAnswers sampleTimestamp (some "boom".toList) =
        ⟨500, .err ("Failed to save answers: ".toList ++ "boom".toList)⟩ :=
  ⟨by decide, C9_store_error_response sampleAnswers sampleTimestamp ("boom".toList) (by decide)⟩

/-- C10: the decoder never returns an empty mapping — on every stored
text its result is `none` or a mapping containing at least one pair. -/
theorem C10_no_empty_mapping (content : Str) :
    get_latest_student_responses content = none ∨
      ∃ m, get_latest_student_responses content = some m ∧ m ≠ [] := by
  cases h : get_latest_student_responses content with
  | none => exact Or.inl rfl
  | some m => exact Or.inr ⟨m, rfl, selectSection_ne_empty _ m h⟩
